import Mathlib

/-!
Verification development for the redictum core: the record (dictum) model,
digest-based identity, validity-window arithmetic, the time-partitioned
queries of the store, and the singleton-per-DSN registry.

The record and store operations are modelled from the specification
(spec.md sections 3 and 4); timestamps are integers, payloads are ordered
association lists (Python dicts preserve insertion order and have distinct
keys), and the digest is modelled by the canonical data it hashes: the
hash function itself is injective on this canonical form by assumption, so
digest equality is equality of canonical forms.
-/

namespace Redictum

/-- Payload field values (enough structure for the payloads the tests use). -/
inductive Value
  | vInt (n : Int)
  | vStr (s : String)
  | vBool (b : Bool)
  | vNone
deriving DecidableEq, Repr

/-- A payload is an ordered mapping of field name to value, modelled as an
association list in insertion order; keys of a Python dict are distinct. -/
abbrev Payload := List (String × Value)

/-- Modelled from the spec: per-record-kind configuration, the class-level
constants `ttl` and `unique_by` of a Dictum subtype. -/
structure Kind where
  ttl : Option Int
  unique_by : List String
deriving DecidableEq, Repr

/-- Modelled from the spec: a dictum has a payload, a validity window
`[valid_from_ts, valid_to_ts)` with `valid_to_ts` optional, and an id that
is absent until first commit. -/
structure Dictum where
  kind : Kind
  data : Payload
  valid_from_ts : Int
  valid_to_ts : Option Int
  id : Option Nat
deriving DecidableEq, Repr

/-- Modelled from the spec: `new(payload)` sets `valid_from_ts` to the
current time and `valid_to_ts` to `now + ttl` when the kind has a TTL,
else absent. The current time is an explicit parameter. -/
def Dictum.new (k : Kind) (payload : Payload) (now : Int) : Dictum :=
  { kind := k
    data := payload
    valid_from_ts := now
    valid_to_ts := k.ttl.map (fun t => now + t)
    id := none }

/-- Modelled from the spec: `slide_ts_window(offset)` shifts
`valid_from_ts` by `offset` and shifts `valid_to_ts` by the same offset
when it is present. -/
def Dictum.slide_ts_window (d : Dictum) (offset : Int) : Dictum :=
  { d with
    valid_from_ts := d.valid_from_ts + offset
    valid_to_ts := d.valid_to_ts.map (fun t => t + offset) }

/-- Modelled from the spec: `extend_ts_window(offset)` shifts only
`valid_to_ts` by `offset` when present, and is a no-op when absent. -/
def Dictum.extend_ts_window (d : Dictum) (offset : Int) : Dictum :=
  { d with valid_to_ts := d.valid_to_ts.map (fun t => t + offset) }

/-- Modelled from the spec and the test fixtures: the Python method
mutates the receiver and returns `self` (so calls can be chained). The
model returns the pair (post-state of the receiver, returned value); a
Python function may return `None`, hence the `Option`. -/
def Dictum.slide_ts_window_call (d : Dictum) (offset : Int) :
    Dictum × Option Dictum :=
  let d2 := d.slide_ts_window offset
  (d2, some d2)

/-- Modelled from the spec and the test fixtures: `extend_ts_window`
likewise mutates the receiver and returns `self`. -/
def Dictum.extend_ts_window_call (d : Dictum) (offset : Int) :
    Dictum × Option Dictum :=
  let d2 := d.extend_ts_window offset
  (d2, some d2)

/-- Lexicographic strict order on character lists, by code point. -/
def lexLtB : List Char → List Char → Bool
  | [], [] => false
  | [], _ :: _ => true
  | _ :: _, [] => false
  | a :: as, b :: bs =>
      if a.toNat < b.toNat then true
      else if b.toNat < a.toNat then false
      else lexLtB as bs

/-- Strict lexicographic order on strings, by code point. -/
def strLt (a b : String) : Bool := lexLtB a.data b.data

/-- Ordering of payload entries by field name, used to canonicalise a
payload before hashing so the digest is independent of insertion order. -/
def keyRel (a b : String × Value) : Prop := strLt b.1 a.1 = false

instance : DecidableRel keyRel := fun a b =>
  inferInstanceAs (Decidable (strLt b.1 a.1 = false))

/-- Canonical key-sorted form of a payload. -/
def keySort (p : Payload) : Payload := List.insertionSort keyRel p

/-- Modelled from the spec: the canonical data the digest hashes — the
ordered `(unique_by field, value)` tuple, or the full payload in
canonical (key-sorted) form when `unique_by` is empty. Two records are
"the same fact" exactly when these canonical forms are equal. -/
inductive DigestVal
  | byFields (fields : List (String × Option Value))
  | byPayload (entries : Payload)
deriving DecidableEq, Repr

/-- Digest of a payload under a `unique_by` configuration. -/
def mkDigest (ub : List String) (p : Payload) : DigestVal :=
  if ub = [] then .byPayload (keySort p)
  else .byFields (ub.map (fun f => (f, p.lookup f)))

/-- Modelled from the spec: `udigest` of a dictum is the digest of its
payload under its kind's `unique_by`; the window and id play no part. -/
def Dictum.udigest (d : Dictum) : DigestVal := mkDigest d.kind.unique_by d.data

/-- Modelled from the spec: one persisted row with the schema
`(id, digest, valid_from_ts, valid_to_ts, payload)`. -/
structure Row where
  id : Nat
  udigest : DigestVal
  valid_from_ts : Int
  valid_to_ts : Option Int
  data : Payload
deriving DecidableEq, Repr

/-- Modelled from the spec: the store's persisted state — its rows and the
next fresh id the backing engine would assign. -/
structure Store where
  rows : List Row
  nextId : Nat
deriving DecidableEq, Repr

/-- The dedup/upsert update: overwrite the found row's payload and window
with the committed record's, in place. -/
def updateRow (r : Row) (d : Dictum) : Row :=
  { r with
    data := d.data
    valid_from_ts := d.valid_from_ts
    valid_to_ts := d.valid_to_ts }

/-- Walk the rows looking for the first row whose digest equals `dg`; if
found, update it in place and report its id, else report `none`. -/
def upsertRows (d : Dictum) (dg : DigestVal) : List Row → Option (List Row × Nat)
  | [] => none
  | r :: rs =>
      if r.udigest = dg then some (updateRow r d :: rs, r.id)
      else
        match upsertRows d dg rs with
        | some (rs2, i) => some (r :: rs2, i)
        | none => none

/-- Modelled from the spec: `commit(record)` computes the record's digest,
updates the existing row with that digest in place when there is one
(assigning the existing id to the record), else inserts a new row with a
fresh id; the mutated record is returned. -/
def Store.commit (s : Store) (d : Dictum) : Store × Dictum :=
  match upsertRows d d.udigest s.rows with
  | some (rows2, i) => ({ s with rows := rows2 }, { d with id := some i })
  | none =>
      ({ rows := s.rows ++
           [{ id := s.nextId
              udigest := d.udigest
              valid_from_ts := d.valid_from_ts
              valid_to_ts := d.valid_to_ts
              data := d.data }]
         nextId := s.nextId + 1 },
       { d with id := some s.nextId })

/-- Modelled from the spec: a row is valid at `ts` when
`valid_from_ts <= ts` and `valid_to_ts` is absent or greater than `ts`. -/
def validAt (r : Row) (ts : Int) : Bool :=
  decide (r.valid_from_ts ≤ ts) &&
    (match r.valid_to_ts with
     | none => true
     | some t => decide (ts < t))

/-- Modelled from the spec: a row is expired at `ts` when `valid_to_ts`
is present and at most `ts`. -/
def expiredAt (r : Row) (ts : Int) : Bool :=
  match r.valid_to_ts with
  | none => false
  | some t => decide (t ≤ ts)

/-- Modelled from the spec: a row is future at `ts` when
`valid_from_ts > ts`. -/
def futureAt (r : Row) (ts : Int) : Bool := decide (ts < r.valid_from_ts)

/-- Modelled from the spec: `load_all()` returns every persisted record. -/
def Store.load_all (s : Store) : List Row := s.rows

/-- Modelled from the spec: `load_valid(at_ts)`. -/
def Store.load_valid (s : Store) (ts : Int) : List Row :=
  s.rows.filter (fun r => validAt r ts)

/-- Modelled from the spec: `load_expired(before_ts)`. -/
def Store.load_expired (s : Store) (ts : Int) : List Row :=
  s.rows.filter (fun r => expiredAt r ts)

/-- Modelled from the spec: `load_future(after_ts)`. -/
def Store.load_future (s : Store) (ts : Int) : List Row :=
  s.rows.filter (fun r => futureAt r ts)

/-- Modelled from the spec: `load_by_id(id)` returns the row with that id,
or `none` if absent. -/
def Store.load_by_id (s : Store) (i : Nat) : Option Row :=
  s.rows.find? (fun r => r.id == i)

/-- Modelled from the spec: `load_by_udigest(digest)` returns the single
row currently holding that digest, or `none`. -/
def Store.load_by_udigest (s : Store) (dg : DigestVal) : Option Row :=
  s.rows.find? (fun r => r.udigest == dg)

/-- Modelled from the spec: the invariant that at most one persisted row
holds any given digest (`load_by_udigest` returns "the single record
currently holding that digest"). -/
def Store.DigestUnique (s : Store) : Prop :=
  ∀ dg : DigestVal, (s.rows.countP (fun r => r.udigest == dg)) ≤ 1

/-- Modelled from the spec: error kinds of the store; `sync` on a record
whose id is absent fails with `NotPersistedError`. -/
inductive StoreError
  | notPersistedError
deriving DecidableEq, Repr

/-- Modelled from the spec: the keyword arguments of `sync` — each named
field is either supplied (`some`) or not named (`none`). -/
structure SyncArgs where
  udigest : Option DigestVal
  valid_from_ts : Option Int
  valid_to_ts : Option (Option Int)
deriving DecidableEq, Repr

/-- Overwrite exactly the named fields of a row. -/
def applySync (a : SyncArgs) (r : Row) : Row :=
  { r with
    udigest := a.udigest.getD r.udigest
    valid_from_ts := a.valid_from_ts.getD r.valid_from_ts
    valid_to_ts := a.valid_to_ts.getD r.valid_to_ts }

/-- Per-row action of `sync` targeting the row with id `i`. -/
def syncRow (a : SyncArgs) (i : Nat) (r : Row) : Row :=
  if r.id = i then applySync a r else r

/-- Modelled from the spec: `sync(record, **fields)` partially updates
only the named window/metadata fields of the row identified by
`record.id`, and fails with `NotPersistedError` when the id is absent. -/
def Store.sync (s : Store) (d : Dictum) (a : SyncArgs) : Except StoreError Store :=
  match d.id with
  | none => .error .notPersistedError
  | some i => .ok { s with rows := s.rows.map (syncRow a i) }

/-- Modelled from the spec: the process-wide registry mapping DSN to the
live store instance for it; instances are modelled by the distinct
reference numbers the registry hands out. -/
structure Registry where
  entries : List (String × Nat)
  nextRef : Nat
deriving DecidableEq, Repr

/-- Modelled from the spec: requesting the store for a DSN returns the
existing instance when the DSN has been seen, else registers and returns
a fresh instance. -/
def Registry.get (reg : Registry) (dsn : String) : Registry × Nat :=
  match reg.entries.lookup dsn with
  | some i => (reg, i)
  | none =>
      ({ entries := (dsn, reg.nextRef) :: reg.entries
         nextRef := reg.nextRef + 1 },
       reg.nextRef)

/-- Well-formedness of the registry: every registered reference is below
the next fresh one, and no two DSNs share an instance. -/
def Registry.WF (reg : Registry) : Prop :=
  (∀ e ∈ reg.entries, e.2 < reg.nextRef) ∧ (reg.entries.map Prod.snd).Nodup

/-- The lexicographic order is irreflexive. -/
theorem lexLtB_irrefl (l : List Char) : lexLtB l l = false := by
  induction l with
  | nil => rfl
  | cons a as ih => simp [lexLtB, ih]

/-- The lexicographic order is transitive. -/
theorem lexLtB_trans (a : List Char) :
    ∀ b c, lexLtB a b = true → lexLtB b c = true → lexLtB a c = true := by
  induction a with
  | nil =>
    intro b c hab hbc
    cases b with
    | nil => simp [lexLtB] at hab
    | cons y ys =>
      cases c with
      | nil => simp [lexLtB] at hbc
      | cons z zs => simp [lexLtB]
  | cons x xs ih =>
    intro b c hab hbc
    cases b with
    | nil => simp [lexLtB] at hab
    | cons y ys =>
      cases c with
      | nil => simp [lexLtB] at hbc
      | cons z zs =>
        simp only [lexLtB] at hab hbc ⊢
        split_ifs at hab hbc ⊢ with h1 h2 h3 h4 h5 h6 <;>
          first
          | rfl
          | omega
          | exact ih ys zs hab hbc

/-- Two lists neither of which is lexicographically below the other are
equal. -/
theorem lexLtB_conn (a : List Char) :
    ∀ b, lexLtB a b = false → lexLtB b a = false → a = b := by
  induction a with
  | nil =>
    intro b h1 _
    cases b with
    | nil => rfl
    | cons y ys => simp [lexLtB] at h1
  | cons x xs ih =>
    intro b h1 h2
    cases b with
    | nil => simp [lexLtB] at h2
    | cons y ys =>
      simp only [lexLtB] at h1 h2
      by_cases h3 : x.toNat < y.toNat
      · rw [if_pos h3] at h1
        exact Bool.noConfusion h1
      · rw [if_neg h3] at h1
        by_cases h4 : y.toNat < x.toNat
        · rw [if_pos h4] at h2
          exact Bool.noConfusion h2
        · rw [if_neg h4] at h1
          rw [if_neg h4, if_neg h3] at h2
          have hnat : x.toNat = y.toNat := by omega
          have hxy : x = y := Char.eq_of_val_eq (UInt32.ext hnat)
          rw [hxy, ih ys h1 h2]

/-- Strings neither of which is strictly below the other are equal. -/
theorem strLt_conn (a b : String) (h1 : strLt a b = false) (h2 : strLt b a = false) :
    a = b := by
  have := lexLtB_conn a.data b.data h1 h2
  cases a
  cases b
  exact congrArg String.mk this

/-- The payload key order is total. -/
theorem keyRel_total (a b : String × Value) : keyRel a b ∨ keyRel b a := by
  unfold keyRel
  cases h1 : strLt b.1 a.1 with
  | false => exact Or.inl rfl
  | true =>
    cases h2 : strLt a.1 b.1 with
    | false => exact Or.inr rfl
    | true =>
      have := lexLtB_trans a.1.data b.1.data a.1.data h2 h1
      rw [lexLtB_irrefl] at this
      exact absurd this (by simp)

/-- The payload key order is transitive. -/
theorem keyRel_trans (a b c : String × Value) (h1 : keyRel a b) (h2 : keyRel b c) :
    keyRel a c := by
  unfold keyRel at h1 h2 ⊢
  cases hca : strLt c.1 a.1 with
  | false => rfl
  | true =>
    exfalso
    cases hab : strLt a.1 b.1 with
    | true =>
      have := lexLtB_trans c.1.data a.1.data b.1.data hca hab
      rw [show lexLtB c.1.data b.1.data = strLt c.1 b.1 from rfl, h2] at this
      exact Bool.noConfusion this
    | false =>
      have hba : a.1 = b.1 := strLt_conn a.1 b.1 hab h1
      rw [← hba, hca] at h2
      exact Bool.noConfusion h2

/-- The payload key order is antisymmetric on the key component. -/
theorem keyRel_antisymm_key (a b : String × Value) (h1 : keyRel a b) (h2 : keyRel b a) :
    a.1 = b.1 :=
  strLt_conn a.1 b.1 h2 h1

/-- `keySort` is a permutation of the payload. -/
theorem keySort_perm (p : Payload) : (keySort p).Perm p :=
  List.perm_insertionSort keyRel p

/-- `keySort` produces a key-sorted payload. -/
theorem keySort_sorted (p : Payload) : List.Sorted keyRel (keySort p) := by
  haveI : IsTotal (String × Value) keyRel := ⟨keyRel_total⟩
  haveI : IsTrans (String × Value) keyRel := ⟨keyRel_trans⟩
  exact List.sorted_insertionSort keyRel p

/-- Two key-sorted payloads with the same entries and distinct keys are
equal. -/
theorem sorted_perm_nodupkeys_eq :
    ∀ {p q : Payload}, p.Perm q → List.Sorted keyRel p → List.Sorted keyRel q →
      (p.map Prod.fst).Nodup → p = q := by
  intro p
  induction p with
  | nil =>
    intro q hp _ _ _
    exact hp.nil_eq
  | cons x xs ih =>
    intro q hp hs1 hs2 hnd
    cases q with
    | nil => exact absurd hp.symm.nil_eq (by simp)
    | cons y ys =>
      have hxy : x = y := by
        have hxq : x ∈ y :: ys := hp.subset (List.mem_cons_self x xs)
        have hyp : y ∈ x :: xs := hp.symm.subset (List.mem_cons_self y ys)
        by_contra hne
        have hxys : x ∈ ys := by
          cases List.mem_cons.mp hxq with
          | inl h => exact absurd h hne
          | inr h => exact h
        have hyxs : y ∈ xs := by
          cases List.mem_cons.mp hyp with
          | inl h => exact absurd h (fun h2 => hne h2.symm)
          | inr h => exact h
        have h1 : keyRel x y := List.rel_of_sorted_cons hs1 y hyxs
        have h2 : keyRel y x := List.rel_of_sorted_cons hs2 x hxys
        have hkey : x.1 = y.1 := keyRel_antisymm_key x y h1 h2
        have : x.1 ∈ xs.map Prod.fst := by
          rw [hkey]
          exact List.mem_map_of_mem Prod.fst hyxs
        simp only [List.map_cons, List.nodup_cons] at hnd
        exact hnd.1 this
      subst hxy
      have hp2 : xs.Perm ys := hp.cons_inv
      have := ih hp2 (List.sorted_cons.mp hs1).2 (List.sorted_cons.mp hs2).2
        (by simp only [List.map_cons, List.nodup_cons] at hnd; exact hnd.2)
      rw [this]

/-- Under distinct keys, a successful lookup means exactly membership of
the binding. -/
theorem lookup_eq_some_iff :
    ∀ {p : Payload}, (p.map Prod.fst).Nodup → ∀ {a : String} {v : Value},
      p.lookup a = some v ↔ (a, v) ∈ p := by
  intro p
  induction p with
  | nil => intro _ a v; simp [List.lookup]
  | cons x xs ih =>
    obtain ⟨k, b⟩ := x
    intro hnd a v
    simp only [List.map_cons, List.nodup_cons] at hnd
    by_cases h : a = k
    · subst h
      simp only [List.lookup, beq_self_eq_true, List.mem_cons]
      constructor
      · intro hv
        injection hv with hv
        exact Or.inl (by rw [hv])
      · intro hv
        rcases hv with h2 | h2
        · injection h2 with h2a h2b
          rw [h2b]
        · exact absurd (List.mem_map_of_mem Prod.fst h2) hnd.1
    · simp only [List.lookup, show (a == k) = false from by simpa using h,
        List.mem_cons]
      rw [ih hnd.2]
      constructor
      · intro hv
        exact Or.inr hv
      · intro hv
        rcases hv with h2 | h2
        · injection h2 with h2a h2b
          exact absurd h2a h
        · exact h2

/-- Lookup is invariant under permutation of a payload with distinct
keys. -/
theorem lookup_perm_eq {p q : Payload} (nd : (p.map Prod.fst).Nodup)
    (h : p.Perm q) (a : String) : p.lookup a = q.lookup a := by
  have ndq : (q.map Prod.fst).Nodup := ((h.map Prod.fst).nodup_iff).mp nd
  cases hp : p.lookup a with
  | some v =>
    have : (a, v) ∈ q := h.subset ((lookup_eq_some_iff nd).mp hp)
    exact ((lookup_eq_some_iff ndq).mpr this).symm
  | none =>
    cases hq : q.lookup a with
    | none => rfl
    | some v =>
      have : (a, v) ∈ p := h.symm.subset ((lookup_eq_some_iff ndq).mp hq)
      rw [(lookup_eq_some_iff nd).mpr this] at hp
      exact Option.noConfusion hp

/-- The digest is invariant under permutation of a payload with distinct
keys, whatever the `unique_by` configuration. -/
theorem mkDigest_perm_eq (ub : List String) {p q : Payload}
    (nd : (p.map Prod.fst).Nodup) (h : p.Perm q) : mkDigest ub p = mkDigest ub q := by
  unfold mkDigest
  by_cases hub : ub = []
  · rw [if_pos hub, if_pos hub]
    have hperm : (keySort p).Perm (keySort q) :=
      (keySort_perm p).trans (h.trans (keySort_perm q).symm)
    have ndp : ((keySort p).map Prod.fst).Nodup :=
      (((keySort_perm p).map Prod.fst).nodup_iff).mpr nd
    rw [sorted_perm_nodupkeys_eq hperm (keySort_sorted p) (keySort_sorted q) ndp]
  · rw [if_neg hub, if_neg hub]
    congr 1
    exact List.map_congr_left (fun f _ => by rw [lookup_perm_eq nd h f])

/-- C3: `digest()` is a deterministic pure function of the `unique_by`
field values in declared order (of the full payload when `unique_by` is
empty): repeated calls agree, the value is independent of payload key
insertion order (distinct keys), it never depends on the window or the
id, and payload fields outside a non-empty `unique_by` never change
it. -/
theorem claim3_digest_pure_deterministic :
    (∀ d : Dictum, d.udigest = d.udigest) ∧
    (∀ (k : Kind) (p q : Payload), (p.map Prod.fst).Nodup → p.Perm q →
      mkDigest k.unique_by p = mkDigest k.unique_by q) ∧
    (∀ d1 d2 : Dictum, d1.kind = d2.kind → d1.data = d2.data →
      d1.udigest = d2.udigest) ∧
    (∀ (ub : List String) (p q : Payload), ub ≠ [] →
      (∀ f ∈ ub, p.lookup f = q.lookup f) → mkDigest ub p = mkDigest ub q) := by
  refine ⟨fun _ => rfl, ?_, ?_, ?_⟩
  · intro k p q nd h
    exact mkDigest_perm_eq k.unique_by nd h
  · intro d1 d2 hk hd
    unfold Dictum.udigest
    rw [hk, hd]
  · intro ub p q hub hf
    unfold mkDigest
    rw [if_neg hub, if_neg hub]
    congr 1
    exact List.map_congr_left (fun f hfm => by rw [hf f hfm])

/-- Witness for C3 at concrete inputs: a reordered two-field payload with
empty `unique_by`, two records differing only in window and id, and two
payloads agreeing on a non-empty `unique_by`. -/
theorem claim3_digest_pure_deterministic_witness :
    mkDigest (Kind.mk none []).unique_by
        [("b", Value.vInt 1), ("a", Value.vInt 2)] =
      mkDigest (Kind.mk none []).unique_by
        [("a", Value.vInt 2), ("b", Value.vInt 1)] ∧
    (Dictum.mk ⟨some 2000, ["s"]⟩ [("s", Value.vInt 1)] 0 (some 5) none).udigest =
      (Dictum.mk ⟨some 2000, ["s"]⟩ [("s", Value.vInt 1)] 7 none (some 3)).udigest ∧
    mkDigest ["x"] [("x", Value.vInt 1), ("y", Value.vInt 2)] =
      mkDigest ["x"] [("x", Value.vInt 1), ("y", Value.vInt 3)] :=
  ⟨claim3_digest_pure_deterministic.2.1 (Kind.mk none []) _ _ (by decide) (by decide),
   claim3_digest_pure_deterministic.2.2.1 _ _ rfl rfl,
   claim3_digest_pure_deterministic.2.2.2 ["x"] _ _ (by decide) (by decide)⟩

/-- C6: `slide_ts_window(offset)` increases `valid_from_ts` by exactly
`offset`; a present `valid_to_ts` is increased by the same offset, an
absent one stays absent. -/
theorem claim6_slide_shifts_window :
    ∀ (d : Dictum) (offset : Int),
      (d.slide_ts_window offset).valid_from_ts = d.valid_from_ts + offset ∧
      (∀ t, d.valid_to_ts = some t →
        (d.slide_ts_window offset).valid_to_ts = some (t + offset)) ∧
      (d.valid_to_ts = none → (d.slide_ts_window offset).valid_to_ts = none) := by
  intro d offset
  refine ⟨rfl, ?_, ?_⟩
  · intro t ht
    simp [Dictum.slide_ts_window, ht]
  · intro ht
    simp [Dictum.slide_ts_window, ht]

/-- Witness for C6: sliding a windowed record and a window-less record by
a concrete offset. -/
theorem claim6_slide_shifts_window_witness :
    ((Dictum.mk ⟨some 10, []⟩ [] 100 (some 110) none).slide_ts_window 3).valid_from_ts =
      (Dictum.mk ⟨some 10, []⟩ [] 100 (some 110) none).valid_from_ts + 3 ∧
    ((Dictum.mk ⟨some 10, []⟩ [] 100 (some 110) none).slide_ts_window 3).valid_to_ts =
      some (110 + 3) ∧
    ((Dictum.mk ⟨none, []⟩ [] 100 none none).slide_ts_window 3).valid_to_ts = none :=
  ⟨(claim6_slide_shifts_window (Dictum.mk ⟨some 10, []⟩ [] 100 (some 110) none) 3).1,
   (claim6_slide_shifts_window (Dictum.mk ⟨some 10, []⟩ [] 100 (some 110) none) 3).2.1 110 rfl,
   (claim6_slide_shifts_window (Dictum.mk ⟨none, []⟩ [] 100 none none) 3).2.2 rfl⟩

/-- C7: `extend_ts_window(offset)` increases a present `valid_to_ts` by
exactly `offset` leaving every other field unchanged, and is a complete
no-op when `valid_to_ts` is absent. -/
theorem claim7_extend_only_to :
    ∀ (d : Dictum) (offset : Int),
      (∀ t, d.valid_to_ts = some t →
        d.extend_ts_window offset = { d with valid_to_ts := some (t + offset) }) ∧
      (d.valid_to_ts = none → d.extend_ts_window offset = d) := by
  intro d offset
  constructor
  · intro t ht
    simp [Dictum.extend_ts_window, ht]
  · intro ht
    cases d with
    | mk k dt f vto i =>
      simp only at ht
      subst ht
      rfl

/-- Witness for C7: extending a windowed record and a window-less
record by a concrete offset. -/
theorem claim7_extend_only_to_witness :
    (Dictum.mk ⟨some 10, []⟩ [("a", Value.vInt 1)] 100 (some 110) none).extend_ts_window 7 =
      Dictum.mk ⟨some 10, []⟩ [("a", Value.vInt 1)] 100 (some (110 + 7)) none ∧
    (Dictum.mk ⟨none, []⟩ [("a", Value.vInt 1)] 100 none (some 2)).extend_ts_window 7 =
      Dictum.mk ⟨none, []⟩ [("a", Value.vInt 1)] 100 none (some 2) :=
  ⟨(claim7_extend_only_to
      (Dictum.mk ⟨some 10, []⟩ [("a", Value.vInt 1)] 100 (some 110) none) 7).1 110 rfl,
   (claim7_extend_only_to
      (Dictum.mk ⟨none, []⟩ [("a", Value.vInt 1)] 100 none (some 2)) 7).2 rfl⟩

/-- C8: construction sets `valid_from_ts` to the current time; when the
kind has a TTL, `valid_to_ts = valid_from_ts + ttl` (strictly later for
positive TTL), otherwise `valid_to_ts` is absent. -/
theorem claim8_new_window :
    ∀ (k : Kind) (p : Payload) (now : Int),
      (Dictum.new k p now).valid_from_ts = now ∧
      (∀ t, k.ttl = some t →
        (Dictum.new k p now).valid_to_ts = some (now + t) ∧
        (0 < t → now < now + t)) ∧
      (k.ttl = none → (Dictum.new k p now).valid_to_ts = none) := by
  intro k p now
  refine ⟨rfl, ?_, ?_⟩
  · intro t ht
    refine ⟨by simp [Dictum.new, ht], fun htp => by omega⟩
  · intro ht
    simp [Dictum.new, ht]

/-- Witness for C8: constructing with a TTL of 100 at time 50, and with
no TTL. -/
theorem claim8_new_window_witness :
    (Dictum.new ⟨some 100, []⟩ [] 50).valid_from_ts = 50 ∧
    (Dictum.new ⟨some 100, []⟩ [] 50).valid_to_ts = some (50 + 100) ∧
    (50 : Int) < 50 + 100 ∧
    (Dictum.new ⟨none, []⟩ [] 50).valid_to_ts = none :=
  ⟨(claim8_new_window ⟨some 100, []⟩ [] 50).1,
   ((claim8_new_window ⟨some 100, []⟩ [] 50).2.1 100 rfl).1,
   ((claim8_new_window ⟨some 100, []⟩ [] 50).2.1 100 rfl).2 (by decide),
   (claim8_new_window ⟨none, []⟩ [] 50).2.2 rfl⟩

/-- C10: the window-manipulation methods return the very record they were
invoked on — the returned value is (not `none` but) exactly the
receiver's post-state, so construction and window shifts chain. -/
theorem claim10_window_calls_return_self :
    ∀ (d : Dictum) (offset : Int),
      (d.slide_ts_window_call offset).2 = some (d.slide_ts_window_call offset).1 ∧
      (d.slide_ts_window_call offset).1 = d.slide_ts_window offset ∧
      (d.extend_ts_window_call offset).2 = some (d.extend_ts_window_call offset).1 ∧
      (d.extend_ts_window_call offset).1 = d.extend_ts_window offset :=
  fun _ _ => ⟨rfl, rfl, rfl, rfl⟩

/-- C5: membership characterisation of the three time-partition queries,
with the half-open convention: valid iff `valid_from_ts <= ts` and
`valid_to_ts` absent or `> ts`; expired iff `valid_to_ts` present and
`<= ts`; future iff `valid_from_ts > ts`. -/
theorem claim5_load_predicates :
    ∀ (s : Store) (ts : Int) (r : Row), r ∈ s.rows →
      (r ∈ s.load_valid ts ↔
        (r.valid_from_ts ≤ ts ∧
          (r.valid_to_ts = none ∨ ∃ t, r.valid_to_ts = some t ∧ ts < t))) ∧
      (r ∈ s.load_expired ts ↔ ∃ t, r.valid_to_ts = some t ∧ t ≤ ts) ∧
      (r ∈ s.load_future ts ↔ ts < r.valid_from_ts) := by
  intro s ts r hr
  refine ⟨?_, ?_, ?_⟩
  · simp only [Store.load_valid, List.mem_filter, validAt]
    cases h : r.valid_to_ts with
    | none => simp [hr, h]
    | some t => simp [hr, h]
  · simp only [Store.load_expired, List.mem_filter, expiredAt]
    cases h : r.valid_to_ts with
    | none => simp [hr, h]
    | some t => simp [hr, h]
  · simp [Store.load_future, List.mem_filter, futureAt, hr]

/-- Witness for C5: one persisted row with window `[0, 10)` probed at
time 5. -/
theorem claim5_load_predicates_witness :
    (Row.mk 1 (DigestVal.byFields []) 0 (some 10) [] ∈
      (Store.mk [Row.mk 1 (DigestVal.byFields []) 0 (some 10) []] 2).load_valid 5 ↔
        ((0 : Int) ≤ 5 ∧
          ((some (10 : Int) = none) ∨ ∃ t, some (10 : Int) = some t ∧ (5 : Int) < t))) ∧
    (Row.mk 1 (DigestVal.byFields []) 0 (some 10) [] ∈
      (Store.mk [Row.mk 1 (DigestVal.byFields []) 0 (some 10) []] 2).load_expired 5 ↔
        ∃ t, some (10 : Int) = some t ∧ t ≤ 5) ∧
    (Row.mk 1 (DigestVal.byFields []) 0 (some 10) [] ∈
      (Store.mk [Row.mk 1 (DigestVal.byFields []) 0 (some 10) []] 2).load_future 5 ↔
        (5 : Int) < 0) :=
  claim5_load_predicates
    (Store.mk [Row.mk 1 (DigestVal.byFields []) 0 (some 10) []] 2) 5
    (Row.mk 1 (DigestVal.byFields []) 0 (some 10) []) (by decide)

/-- Counterexample for C2: with an inverted window (reachable through
`extend_ts_window` with a negative offset, then `commit`), a persisted
row lies in both `load_expired(ts)` and `load_future(ts)` for the same
`ts`, so the three queries are not pairwise disjoint as claimed. -/
theorem claim2_partition_counterexample :
    Row.mk 0 (DigestVal.byFields []) 10 (some 5) [] ∈
      (Store.mk [Row.mk 0 (DigestVal.byFields []) 10 (some 5) []] 1).load_expired 7 ∧
    Row.mk 0 (DigestVal.byFields []) 10 (some 5) [] ∈
      (Store.mk [Row.mk 0 (DigestVal.byFields []) 10 (some 5) []] 1).load_future 7 := by
  constructor <;> decide

/-- C2 (amended): for any fixed `ts`, `load_valid`, `load_expired` and
`load_future` cover all persisted records and return only persisted
records; `load_valid` is disjoint from the other two unconditionally,
and `load_expired` and `load_future` are disjoint provided no persisted
record has an inverted window (`valid_from_ts <= valid_to_ts` whenever
`valid_to_ts` is present). -/
theorem claim2_partition_amended :
    ∀ (s : Store) (ts : Int),
      (∀ r ∈ s.rows,
        r ∈ s.load_valid ts ∨ r ∈ s.load_expired ts ∨ r ∈ s.load_future ts) ∧
      (∀ r : Row,
        (r ∈ s.load_valid ts → r ∈ s.rows) ∧
        (r ∈ s.load_expired ts → r ∈ s.rows) ∧
        (r ∈ s.load_future ts → r ∈ s.rows)) ∧
      (∀ r : Row, ¬(r ∈ s.load_valid ts ∧ r ∈ s.load_expired ts)) ∧
      (∀ r : Row, ¬(r ∈ s.load_valid ts ∧ r ∈ s.load_future ts)) ∧
      ((∀ r ∈ s.rows, ∀ t, r.valid_to_ts = some t → r.valid_from_ts ≤ t) →
        ∀ r : Row, ¬(r ∈ s.load_expired ts ∧ r ∈ s.load_future ts)) := by
  intro s ts
  refine ⟨?_, ?_, ?_, ?_, ?_⟩
  · intro r hr
    by_cases hf : ts < r.valid_from_ts
    · exact Or.inr (Or.inr (by simp [Store.load_future, List.mem_filter, futureAt, hr, hf]))
    · cases h : r.valid_to_ts with
      | none =>
        exact Or.inl (by simp [Store.load_valid, List.mem_filter, validAt, hr, h]; omega)
      | some t =>
        by_cases he : t ≤ ts
        · exact Or.inr (Or.inl
            (by simp [Store.load_expired, List.mem_filter, expiredAt, hr, h, he]))
        · exact Or.inl
            (by simp [Store.load_valid, List.mem_filter, validAt, hr, h]; omega)
  · intro r
    exact ⟨fun h => (List.mem_filter.mp h).1,
           fun h => (List.mem_filter.mp h).1,
           fun h => (List.mem_filter.mp h).1⟩
  · intro r ⟨hv, he⟩
    have h1 := (List.mem_filter.mp hv).2
    have h2 := (List.mem_filter.mp he).2
    simp only [validAt, expiredAt] at h1 h2
    cases h : r.valid_to_ts with
    | none => rw [h] at h2; exact Bool.noConfusion h2
    | some t =>
      rw [h] at h1 h2
      simp at h1 h2
      omega
  · intro r ⟨hv, hf⟩
    have h1 := (List.mem_filter.mp hv).2
    have h2 := (List.mem_filter.mp hf).2
    simp only [validAt, futureAt] at h1 h2
    simp at h1 h2
    omega
  · intro hw r ⟨he, hf⟩
    have hr := (List.mem_filter.mp he).1
    have h1 := (List.mem_filter.mp he).2
    have h2 := (List.mem_filter.mp hf).2
    simp only [expiredAt, futureAt] at h1 h2
    cases h : r.valid_to_ts with
    | none => rw [h] at h1; exact Bool.noConfusion h1
    | some t =>
      rw [h] at h1
      have hw2 := hw r hr t h
      simp at h1 h2
      omega

/-- Witness for C2 (amended) on a two-row store with proper windows:
exhaustiveness at the first row and expired/future disjointness provided
by the window hypothesis. -/
theorem claim2_partition_amended_witness :
    (Row.mk 1 (DigestVal.byFields []) 0 (some 10) [] ∈
        (Store.mk [Row.mk 1 (DigestVal.byFields []) 0 (some 10) [],
          Row.mk 2 (DigestVal.byPayload []) 20 none []] 3).load_valid 5 ∨
      Row.mk 1 (DigestVal.byFields []) 0 (some 10) [] ∈
        (Store.mk [Row.mk 1 (DigestVal.byFields []) 0 (some 10) [],
          Row.mk 2 (DigestVal.byPayload []) 20 none []] 3).load_expired 5 ∨
      Row.mk 1 (DigestVal.byFields []) 0 (some 10) [] ∈
        (Store.mk [Row.mk 1 (DigestVal.byFields []) 0 (some 10) [],
          Row.mk 2 (DigestVal.byPayload []) 20 none []] 3).load_future 5) ∧
    (¬(Row.mk 1 (DigestVal.byFields []) 0 (some 10) [] ∈
        (Store.mk [Row.mk 1 (DigestVal.byFields []) 0 (some 10) [],
          Row.mk 2 (DigestVal.byPayload []) 20 none []] 3).load_expired 5 ∧
       Row.mk 1 (DigestVal.byFields []) 0 (some 10) [] ∈
        (Store.mk [Row.mk 1 (DigestVal.byFields []) 0 (some 10) [],
          Row.mk 2 (DigestVal.byPayload []) 20 none []] 3).load_future 5)) :=
  ⟨(claim2_partition_amended
      (Store.mk [Row.mk 1 (DigestVal.byFields []) 0 (some 10) [],
        Row.mk 2 (DigestVal.byPayload []) 20 none []] 3) 5).1
      (Row.mk 1 (DigestVal.byFields []) 0 (some 10) []) (by decide),
   (claim2_partition_amended
      (Store.mk [Row.mk 1 (DigestVal.byFields []) 0 (some 10) [],
        Row.mk 2 (DigestVal.byPayload []) 20 none []] 3) 5).2.2.2.2
      (by decide)
      (Row.mk 1 (DigestVal.byFields []) 0 (some 10) [])⟩

/-- C9: `sync` on an uncommitted record fails with `NotPersistedError`;
on a committed record it maps exactly the row with the record's id
through the partial update, which overwrites precisely the named fields
and leaves the row's id, payload and unnamed fields untouched; all other
rows are unchanged. -/
theorem claim9_sync_partial_update :
    ∀ (s : Store) (d : Dictum) (a : SyncArgs),
      (d.id = none → s.sync d a = Except.error StoreError.notPersistedError) ∧
      (∀ i, d.id = some i →
        s.sync d a = Except.ok (Store.mk (s.rows.map (syncRow a i)) s.nextId)) ∧
      (∀ i (r : Row), r.id ≠ i → syncRow a i r = r) ∧
      (∀ i (r : Row), r.id = i →
        (syncRow a i r).id = r.id ∧
        (syncRow a i r).data = r.data ∧
        (syncRow a i r).udigest = a.udigest.getD r.udigest ∧
        (syncRow a i r).valid_from_ts = a.valid_from_ts.getD r.valid_from_ts ∧
        (syncRow a i r).valid_to_ts = a.valid_to_ts.getD r.valid_to_ts) := by
  intro s d a
  refine ⟨?_, ?_, ?_, ?_⟩
  · intro h
    simp [Store.sync, h]
  · intro i h
    simp [Store.sync, h]
  · intro i r h
    simp [syncRow, h]
  · intro i r h
    simp [syncRow, h, applySync]

/-- Witness for C9: syncing an uncommitted record errors; syncing a
committed record with only `valid_from_ts` named rewrites that field on
its row and nothing else. -/
theorem claim9_sync_partial_update_witness :
    ((Store.mk [Row.mk 1 (DigestVal.byFields []) 0 (some 10) []] 2).sync
        (Dictum.mk ⟨none, []⟩ [] 0 none none) (SyncArgs.mk none (some 5) none) =
      Except.error StoreError.notPersistedError) ∧
    ((Store.mk [Row.mk 1 (DigestVal.byFields []) 0 (some 10) []] 2).sync
        (Dictum.mk ⟨none, []⟩ [] 0 none (some 1)) (SyncArgs.mk none (some 5) none) =
      Except.ok (Store.mk
        ([Row.mk 1 (DigestVal.byFields []) 0 (some 10) []].map
          (syncRow (SyncArgs.mk none (some 5) none) 1)) 2)) ∧
    (syncRow (SyncArgs.mk none (some 5) none) 1
        (Row.mk 3 (DigestVal.byFields []) 0 (some 10) []) =
      Row.mk 3 (DigestVal.byFields []) 0 (some 10) []) ∧
    ((syncRow (SyncArgs.mk none (some 5) none) 1
        (Row.mk 1 (DigestVal.byFields []) 0 (some 10) [])).valid_from_ts =
      (SyncArgs.mk none (some (5 : Int)) none).valid_from_ts.getD 0 ∧
     (syncRow (SyncArgs.mk none (some 5) none) 1
        (Row.mk 1 (DigestVal.byFields []) 0 (some 10) [])).valid_to_ts =
      (SyncArgs.mk none (some (5 : Int)) none).valid_to_ts.getD (some 10) ∧
     (syncRow (SyncArgs.mk none (some 5) none) 1
        (Row.mk 1 (DigestVal.byFields []) 0 (some 10) [])).data = []) :=
  ⟨(claim9_sync_partial_update (Store.mk [Row.mk 1 (DigestVal.byFields []) 0 (some 10) []] 2)
      (Dictum.mk ⟨none, []⟩ [] 0 none none) (SyncArgs.mk none (some 5) none)).1 rfl,
   (claim9_sync_partial_update (Store.mk [Row.mk 1 (DigestVal.byFields []) 0 (some 10) []] 2)
      (Dictum.mk ⟨none, []⟩ [] 0 none (some 1)) (SyncArgs.mk none (some 5) none)).2.1 1 rfl,
   (claim9_sync_partial_update (Store.mk [Row.mk 1 (DigestVal.byFields []) 0 (some 10) []] 2)
      (Dictum.mk ⟨none, []⟩ [] 0 none (some 1)) (SyncArgs.mk none (some 5) none)).2.2.1 1
      (Row.mk 3 (DigestVal.byFields []) 0 (some 10) []) (by decide),
   ⟨((claim9_sync_partial_update (Store.mk [Row.mk 1 (DigestVal.byFields []) 0 (some 10) []] 2)
      (Dictum.mk ⟨none, []⟩ [] 0 none (some 1)) (SyncArgs.mk none (some 5) none)).2.2.2 1
      (Row.mk 1 (DigestVal.byFields []) 0 (some 10) []) rfl).2.2.2.1,
    ((claim9_sync_partial_update (Store.mk [Row.mk 1 (DigestVal.byFields []) 0 (some 10) []] 2)
      (Dictum.mk ⟨none, []⟩ [] 0 none (some 1)) (SyncArgs.mk none (some 5) none)).2.2.2 1
      (Row.mk 1 (DigestVal.byFields []) 0 (some 10) []) rfl).2.2.2.2,
    ((claim9_sync_partial_update (Store.mk [Row.mk 1 (DigestVal.byFields []) 0 (some 10) []] 2)
      (Dictum.mk ⟨none, []⟩ [] 0 none (some 1)) (SyncArgs.mk none (some 5) none)).2.2.2 1
      (Row.mk 1 (DigestVal.byFields []) 0 (some 10) []) rfl).2.1⟩⟩

/-- A successful lookup in a DSN table yields a binding of the table. -/
theorem lookup_mem_entries :
    ∀ {l : List (String × Nat)} {a : String} {v : Nat},
      l.lookup a = some v → (a, v) ∈ l := by
  intro l
  induction l with
  | nil => intro a v h; exact Option.noConfusion h
  | cons x xs ih =>
    obtain ⟨k, b⟩ := x
    intro a v h
    by_cases hk : a = k
    · subst hk
      simp only [List.lookup, beq_self_eq_true] at h
      injection h with h
      exact List.mem_cons.mpr (Or.inl (by rw [h]))
    · simp only [List.lookup, show (a == k) = false from by simpa using hk] at h
      exact List.mem_cons.mpr (Or.inr (ih h))

/-- When the registered references are distinct, two bindings sharing a
reference have the same DSN. -/
theorem snd_nodup_same_ref :
    ∀ {l : List (String × Nat)}, (l.map Prod.snd).Nodup →
      ∀ {a b : String} {i : Nat}, (a, i) ∈ l → (b, i) ∈ l → a = b := by
  intro l
  induction l with
  | nil => intro _ a b i ha _; exact absurd ha (List.not_mem_nil _)
  | cons x xs ih =>
    intro hnd a b i ha hb
    simp only [List.map_cons, List.nodup_cons] at hnd
    rcases List.mem_cons.mp ha with ha1 | ha1 <;>
      rcases List.mem_cons.mp hb with hb1 | hb1
    · exact congrArg Prod.fst (ha1.trans hb1.symm)
    · exfalso
      apply hnd.1
      rw [← ha1]
      show i ∈ List.map Prod.snd xs
      exact List.mem_map_of_mem Prod.snd hb1
    · exfalso
      apply hnd.1
      rw [← hb1]
      show i ∈ List.map Prod.snd xs
      exact List.mem_map_of_mem Prod.snd ha1
    · exact ih hnd.2 ha1 hb1

/-- C4: requesting a store for the same DSN twice returns the identical
instance; for a well-formed registry, requesting two different DSNs
returns two distinct instances. -/
theorem claim4_registry_singleton :
    ∀ (reg : Registry) (dsn1 dsn2 : String),
      ((reg.get dsn1).1.get dsn1).2 = (reg.get dsn1).2 ∧
      (Registry.WF reg → dsn1 ≠ dsn2 →
        ((reg.get dsn1).1.get dsn2).2 ≠ (reg.get dsn1).2) := by
  intro reg dsn1 dsn2
  constructor
  · cases h : reg.entries.lookup dsn1 with
    | some i => simp [Registry.get, h]
    | none => simp [Registry.get, h, List.lookup]
  · intro hwf hne
    cases h1 : reg.entries.lookup dsn1 with
    | some i =>
      have hmem1 : (dsn1, i) ∈ reg.entries := lookup_mem_entries h1
      cases h2 : reg.entries.lookup dsn2 with
      | some j =>
        simp only [Registry.get, h1, h2]
        intro hji
        have hmem2 : (dsn2, j) ∈ reg.entries := lookup_mem_entries h2
        rw [hji] at hmem2
        exact hne (snd_nodup_same_ref hwf.2 hmem1 hmem2)
      | none =>
        simp only [Registry.get, h1, h2]
        have := hwf.1 (dsn1, i) hmem1
        omega
    | none =>
      have hlk2 : ((dsn1, reg.nextRef) :: reg.entries).lookup dsn2 =
          reg.entries.lookup dsn2 := by
        simp only [List.lookup, show (dsn2 == dsn1) = false from
          by simpa using fun h => hne h.symm]
      cases h2 : reg.entries.lookup dsn2 with
      | some j =>
        simp only [Registry.get, h1, hlk2, h2]
        have := hwf.1 (dsn2, j) (lookup_mem_entries h2)
        omega
      | none =>
        simp only [Registry.get, h1, hlk2, h2]
        omega

/-- Witness for C4 at the empty registry and the DSN strings "a" and
"b". -/
theorem claim4_registry_singleton_witness :
    (((Registry.mk [] 0).get "a").1.get "a").2 = ((Registry.mk [] 0).get "a").2 ∧
    (((Registry.mk [] 0).get "a").1.get "b").2 ≠ ((Registry.mk [] 0).get "a").2 :=
  ⟨(claim4_registry_singleton (Registry.mk [] 0) "a" "b").1,
   (claim4_registry_singleton (Registry.mk [] 0) "a" "b").2
     ⟨fun e he => absurd he (List.not_mem_nil e), List.nodup_nil⟩ (by decide)⟩

/-- When the upsert walk finds nothing, no row carries the digest. -/
theorem upsertRows_eq_none {d : Dictum} {dg : DigestVal} :
    ∀ {rows : List Row}, upsertRows d dg rows = none →
      ∀ r ∈ rows, r.udigest ≠ dg := by
  intro rows
  induction rows with
  | nil => intro _ r hr; exact absurd hr (List.not_mem_nil r)
  | cons x xs ih =>
    intro h r hr
    by_cases hx : x.udigest = dg
    · rw [upsertRows, if_pos hx] at h
      exact Option.noConfusion h
    · rw [upsertRows, if_neg hx] at h
      rcases List.mem_cons.mp hr with h1 | h1
      · rw [h1]; exact hx
      · cases hrec : upsertRows d dg xs with
        | none => exact ih hrec r h1
        | some p => rw [hrec] at h; exact Option.noConfusion h

/-- The upsert walk past a digest-free prefix updates the first matching
row in place and reports its id. -/
theorem upsertRows_found (d : Dictum) (dg : DigestVal) :
    ∀ (pre : List Row) (r : Row) (post : List Row),
      (∀ x ∈ pre, x.udigest ≠ dg) → r.udigest = dg →
      upsertRows d dg (pre ++ r :: post) =
        some (pre ++ updateRow r d :: post, r.id) := by
  intro pre
  induction pre with
  | nil =>
    intro r post _ hr
    simp [upsertRows, hr]
  | cons x xs ih =>
    intro r post hpre hr
    have hx : x.udigest ≠ dg := hpre x (List.mem_cons_self x xs)
    rw [List.cons_append, upsertRows, if_neg hx,
      ih r post (fun y hy => hpre y (List.mem_cons_of_mem x hy)) hr]
    rfl

/-- A successful upsert walk decomposes the rows around the first row
carrying the digest. -/
theorem upsertRows_some_decomp {d : Dictum} {dg : DigestVal} :
    ∀ {rows rows2 : List Row} {i : Nat},
      upsertRows d dg rows = some (rows2, i) →
      ∃ pre r post, rows = pre ++ r :: post ∧ (∀ x ∈ pre, x.udigest ≠ dg) ∧
        r.udigest = dg ∧ rows2 = pre ++ updateRow r d :: post ∧ i = r.id := by
  intro rows
  induction rows with
  | nil => intro rows2 i h; exact Option.noConfusion h
  | cons x xs ih =>
    intro rows2 i h
    by_cases hx : x.udigest = dg
    · rw [upsertRows, if_pos hx] at h
      injection h with h
      injection h with h1 h2
      exact ⟨[], x, xs, rfl, by intro y hy; exact absurd hy (List.not_mem_nil y),
        hx, h1.symm, h2.symm⟩
    · rw [upsertRows, if_neg hx] at h
      cases hrec : upsertRows d dg xs with
      | none => rw [hrec] at h; exact Option.noConfusion h
      | some p =>
        obtain ⟨rs2, j⟩ := p
        rw [hrec] at h
        injection h with h
        injection h with h1 h2
        obtain ⟨pre, r, post, k1, k2, k3, k4, k5⟩ := ih hrec
        refine ⟨x :: pre, r, post, by rw [k1, List.cons_append], ?_, k3,
          by rw [← h1, k4, List.cons_append], by rw [← h2, k5]⟩
        intro y hy
        rcases List.mem_cons.mp hy with hy1 | hy1
        · rw [hy1]; exact hx
        · exact k2 y hy1

/-- C1: under the store's one-row-per-digest invariant, committing two
records with equal digest leaves exactly one row carrying that digest;
the second commit updates that row's payload and window in place (no
insertion), the second commit's payload/window win, and the second
record receives the same id as the first. -/
theorem claim1_commit_upsert_dedup :
    ∀ (s : Store) (d1 d2 : Dictum),
      s.DigestUnique → d1.udigest = d2.udigest →
      ((s.commit d1).1.commit d2).1.rows.countP
          (fun r => r.udigest == d2.udigest) = 1 ∧
      ((s.commit d1).1.commit d2).1.rows.length = (s.commit d1).1.rows.length ∧
      ((s.commit d1).1.commit d2).2.id = (s.commit d1).2.id ∧
      (∃ r, ((s.commit d1).1.commit d2).1.load_by_udigest d2.udigest = some r ∧
        r.data = d2.data ∧ r.valid_from_ts = d2.valid_from_ts ∧
        r.valid_to_ts = d2.valid_to_ts ∧
        ((s.commit d1).1.commit d2).2.id = some r.id) := by
  intro s d1 d2 hu heq
  cases hfind : upsertRows d1 d1.udigest s.rows with
  | none =>
    have hall : ∀ r ∈ s.rows, r.udigest ≠ d1.udigest := upsertRows_eq_none hfind
    have h1 : s.commit d1 =
        (Store.mk (s.rows ++
            [Row.mk s.nextId d1.udigest d1.valid_from_ts d1.valid_to_ts d1.data])
          (s.nextId + 1),
         { d1 with id := some s.nextId }) := by
      simp [Store.commit, hfind]
    have hfound2 : upsertRows d2 d2.udigest
        (s.rows ++
          [Row.mk s.nextId d1.udigest d1.valid_from_ts d1.valid_to_ts d1.data]) =
        some (s.rows ++
          [updateRow
            (Row.mk s.nextId d1.udigest d1.valid_from_ts d1.valid_to_ts d1.data) d2],
          s.nextId) :=
      upsertRows_found d2 d2.udigest s.rows
        (Row.mk s.nextId d1.udigest d1.valid_from_ts d1.valid_to_ts d1.data) []
        (fun x hx => by rw [← heq]; exact hall x hx) (by rw [← heq])
    have h2 : (s.commit d1).1.commit d2 =
        (Store.mk (s.rows ++
            [updateRow
              (Row.mk s.nextId d1.udigest d1.valid_from_ts d1.valid_to_ts d1.data) d2])
          (s.nextId + 1),
         { d2 with id := some s.nextId }) := by
      rw [h1]
      simp [Store.commit, hfound2]
    rw [h2, h1]
    refine ⟨?_, ?_, rfl, ?_⟩
    · rw [List.countP_append]
      have hz : s.rows.countP (fun r => r.udigest == d2.udigest) = 0 :=
        List.countP_eq_zero.mpr (fun r hr => by
          simp only [beq_iff_eq]
          rw [← heq]
          simpa using hall r hr)
      rw [hz]
      simp [updateRow, ← heq]
    · simp
    · refine ⟨updateRow
        (Row.mk s.nextId d1.udigest d1.valid_from_ts d1.valid_to_ts d1.data) d2,
        ?_, rfl, rfl, rfl, rfl⟩
      simp only [Store.load_by_udigest, List.find?_append]
      have hn : s.rows.find? (fun r => r.udigest == d2.udigest) = none :=
        List.find?_eq_none.mpr (fun r hr => by
          simp only [beq_iff_eq]
          rw [← heq]
          simpa using hall r hr)
      rw [hn]
      simp [updateRow, ← heq]
  | some p =>
    obtain ⟨rows2, i⟩ := p
    obtain ⟨pre, r, post, k1, k2, k3, k4, k5⟩ := upsertRows_some_decomp hfind
    have h1 : s.commit d1 =
        (Store.mk (pre ++ updateRow r d1 :: post) s.nextId,
         { d1 with id := some r.id }) := by
      simp [Store.commit, hfind, k4, k5]
    have hpre2 : ∀ x ∈ pre, x.udigest ≠ d2.udigest := by
      intro x hx
      rw [← heq]
      exact k2 x hx
    have hfound2 : upsertRows d2 d2.udigest (pre ++ updateRow r d1 :: post) =
        some (pre ++ updateRow (updateRow r d1) d2 :: post, r.id) := by
      have := upsertRows_found d2 d2.udigest pre (updateRow r d1) post hpre2
        (by show r.udigest = d2.udigest; rw [← heq]; exact k3)
      simpa [updateRow] using this
    have h2 : (s.commit d1).1.commit d2 =
        (Store.mk (pre ++ updateRow (updateRow r d1) d2 :: post) s.nextId,
         { d2 with id := some r.id }) := by
      rw [h1]
      simp [Store.commit, hfound2]
    have hpost : ∀ x ∈ post, x.udigest ≠ d2.udigest := by
      have hcount := hu d1.udigest
      rw [k1, List.countP_append, List.countP_cons] at hcount
      simp only [beq_iff_eq, k3, if_pos] at hcount
      have hzero : post.countP (fun x => x.udigest == d1.udigest) = 0 := by omega
      intro x hx
      rw [← heq]
      exact (List.countP_eq_zero.mp hzero) x hx |> fun h => by simpa using h
    rw [h2, h1]
    refine ⟨?_, ?_, rfl, ?_⟩
    · rw [List.countP_append, List.countP_cons]
      have hzpre : pre.countP (fun x => x.udigest == d2.udigest) = 0 :=
        List.countP_eq_zero.mpr (fun x hx => by simpa using hpre2 x hx)
      have hzpost : post.countP (fun x => x.udigest == d2.udigest) = 0 :=
        List.countP_eq_zero.mpr (fun x hx => by simpa using hpost x hx)
      rw [hzpre, hzpost]
      have : (updateRow (updateRow r d1) d2).udigest = d2.udigest := by
        show r.udigest = d2.udigest
        rw [← heq]
        exact k3
      simp [this]
    · simp
    · refine ⟨updateRow (updateRow r d1) d2, ?_, rfl, rfl, rfl, rfl⟩
      simp only [Store.load_by_udigest, List.find?_append]
      have hn : pre.find? (fun x => x.udigest == d2.udigest) = none :=
        List.find?_eq_none.mpr (fun x hx => by simpa using hpre2 x hx)
      rw [hn]
      have : (updateRow (updateRow r d1) d2).udigest = d2.udigest := by
        show r.udigest = d2.udigest
        rw [← heq]
        exact k3
      simp [List.find?_cons, this]

/-- Witness for C1: an empty store, then two records of a kind with
`unique_by = [s1]` agreeing on `s1` but differing in the rest of the
payload and in their windows. -/
theorem claim1_commit_upsert_dedup_witness :
    (((Store.mk [] 0).commit
          (Dictum.mk (Kind.mk (some 2000) ["s1"])
            [("s1", Value.vInt 1), ("o", Value.vStr "a")] 0 (some 2000) none)).1.commit
        (Dictum.mk (Kind.mk (some 2000) ["s1"])
          [("s1", Value.vInt 1), ("o", Value.vStr "b")] 5 (some 2005) none)).1.rows.countP
        (fun r => r.udigest ==
          (Dictum.mk (Kind.mk (some 2000) ["s1"])
            [("s1", Value.vInt 1), ("o", Value.vStr "b")] 5 (some 2005) none).udigest) = 1 ∧
    (((Store.mk [] 0).commit
          (Dictum.mk (Kind.mk (some 2000) ["s1"])
            [("s1", Value.vInt 1), ("o", Value.vStr "a")] 0 (some 2000) none)).1.commit
        (Dictum.mk (Kind.mk (some 2000) ["s1"])
          [("s1", Value.vInt 1), ("o", Value.vStr "b")] 5 (some 2005) none)).1.rows.length =
      ((Store.mk [] 0).commit
        (Dictum.mk (Kind.mk (some 2000) ["s1"])
          [("s1", Value.vInt 1), ("o", Value.vStr "a")] 0 (some 2000) none)).1.rows.length ∧
    (((Store.mk [] 0).commit
          (Dictum.mk (Kind.mk (some 2000) ["s1"])
            [("s1", Value.vInt 1), ("o", Value.vStr "a")] 0 (some 2000) none)).1.commit
        (Dictum.mk (Kind.mk (some 2000) ["s1"])
          [("s1", Value.vInt 1), ("o", Value.vStr "b")] 5 (some 2005) none)).2.id =
      ((Store.mk [] 0).commit
        (Dictum.mk (Kind.mk (some 2000) ["s1"])
          [("s1", Value.vInt 1), ("o", Value.vStr "a")] 0 (some 2000) none)).2.id ∧
    (∃ r, (((Store.mk [] 0).commit
          (Dictum.mk (Kind.mk (some 2000) ["s1"])
            [("s1", Value.vInt 1), ("o", Value.vStr "a")] 0 (some 2000) none)).1.commit
        (Dictum.mk (Kind.mk (some 2000) ["s1"])
          [("s1", Value.vInt 1), ("o", Value.vStr "b")] 5 (some 2005) none)).1.load_by_udigest
          (Dictum.mk (Kind.mk (some 2000) ["s1"])
            [("s1", Value.vInt 1), ("o", Value.vStr "b")] 5 (some 2005) none).udigest =
        some r ∧
      r.data = (Dictum.mk (Kind.mk (some 2000) ["s1"])
          [("s1", Value.vInt 1), ("o", Value.vStr "b")] 5 (some 2005) none).data ∧
      r.valid_from_ts = (Dictum.mk (Kind.mk (some 2000) ["s1"])
          [("s1", Value.vInt 1), ("o", Value.vStr "b")] 5 (some 2005) none).valid_from_ts ∧
      r.valid_to_ts = (Dictum.mk (Kind.mk (some 2000) ["s1"])
          [("s1", Value.vInt 1), ("o", Value.vStr "b")] 5 (some 2005) none).valid_to_ts ∧
      (((Store.mk [] 0).commit
          (Dictum.mk (Kind.mk (some 2000) ["s1"])
            [("s1", Value.vInt 1), ("o", Value.vStr "a")] 0 (some 2000) none)).1.commit
        (Dictum.mk (Kind.mk (some 2000) ["s1"])
          [("s1", Value.vInt 1), ("o", Value.vStr "b")] 5 (some 2005) none)).2.id = some r.id) :=
  claim1_commit_upsert_dedup (Store.mk [] 0)
    (Dictum.mk (Kind.mk (some 2000) ["s1"])
      [("s1", Value.vInt 1), ("o", Value.vStr "a")] 0 (some 2000) none)
    (Dictum.mk (Kind.mk (some 2000) ["s1"])
      [("s1", Value.vInt 1), ("o", Value.vStr "b")] 5 (some 2005) none)
    (fun _ => by rw [List.countP_nil]; exact Nat.zero_le 1)
    (by decide)

end Redictum
